import Mathlib

/-
  Verification development for the `ReducePointerLevel` transformation pass
  (src/ReducePointerLevel.cpp).

  The pass analyses a parsed C program, registers every pointer-typed variable
  or field declaration together with its pointer-indirection level, classifies
  which declarations are safe to shrink, and converts a 1-based target index
  into one chosen declaration via a deterministic two-tier counting procedure.

  Shallow embedding conventions:
  * Clang types are modelled by `CType` (scalar base types, pointer types,
    array types); `CType.isPointer` is clang's `Type::isPointerType`, and
    pointee unwrapping follows `Type::getPointeeType` (non-null exactly on
    pointer types).
  * Declarations (`Decl`) carry the canonical-declaration identity directly as
    a natural number `canon`: in clang, `getCanonicalDecl` maps every
    redeclaration of one entity to a single representative, so two `Decl`
    values with the same `canon` model redeclarations of one entity.
  * Expressions (`Expr`) are a tagged tree with the shapes the pass inspects
    (`DeclRefExpr`, `MemberExpr`, `UnaryOperator`, `BinaryOperator`,
    `ArraySubscriptExpr`, parens, casts) plus representatives of the shapes it
    does not handle (calls, conditionals, literals).  Each node carries the
    clang-computed type of the expression, queried by `Expr.type`.
  * The `RecursiveASTVisitor` traversal is modelled by a preorder walk
    (`preorder`) that fires the `Visit...` callbacks on every node, and by a
    program given as the list of declarations and statements in traversal
    order (`Node`).
  * `TransAssert` failures (aborts of the invocation) are modelled by `none`
    in `Option`-valued functions.
  * The C++ `int` counters (`TransformationCounter`, `ValidInstanceNum`) are
    modelled by `Int` and `Nat`; no arithmetic in the pass can overflow a
    32-bit int for the program sizes the claims quantify over, so unbounded
    integers are a faithful model.
-/

namespace RPL

/-- Model of a clang type, as far as the pass inspects types: a non-pointer
non-array base type, a pointer type with its pointee, or an array type with
its element type. -/
inductive CType : Type where
  | scalar : CType
  | pointer : CType → CType
  | array : CType → CType
deriving Repr, DecidableEq

/-- `Type::isPointerType`: true exactly on pointer types. -/
def CType.isPointer : CType → Bool
  | CType.pointer _ => true
  | _ => false

/-- `PointerLevelCollectionVisitor::getPointerIndirectLevel`: repeatedly take
`getPointeeType` (non-null exactly on pointer types) and count the steps. -/
def getPointerIndirectLevel : CType → Nat
  | CType.pointer t => getPointerIndirectLevel t + 1
  | _ => 0

/-- `ReducePointerLevel::getArrayBaseElemType`, applied to the element type of
an array: strip array layers until the type is no longer an array type. -/
def getArrayBaseElemType : CType → CType
  | CType.array elem => getArrayBaseElemType elem
  | t => t

/-- The declaration kinds the collector distinguishes (`Decl::Field`,
`Decl::Var`, and everything else, e.g. `Decl::ParmVar` or functions). -/
inductive DeclKind : Type where
  | var : DeclKind
  | field : DeclKind
  | other : DeclKind
deriving Repr, DecidableEq

/-- Unary operator opcodes the pass inspects: `UO_AddrOf`, `UO_Deref`, and
all remaining opcodes collapsed into one. -/
inductive UnaryOp : Type where
  | addrOf : UnaryOp
  | deref : UnaryOp
  | other : UnaryOp
deriving Repr, DecidableEq

/-- Binary operator opcodes the pass inspects: plain assignment, compound
assignment, and everything else. -/
inductive BinOp : Type where
  | assign : BinOp
  | compoundAssign : BinOp
  | other : BinOp
deriving Repr, DecidableEq

/-- `BinaryOperator::isAssignmentOp` joined with `isCompoundAssignmentOp`:
the collector proceeds exactly when the opcode is a plain or compound
assignment. -/
def BinOp.isAssignmentOp : BinOp → Bool
  | BinOp.assign => true
  | BinOp.compoundAssign => true
  | BinOp.other => false

/-- Model of an expression node.  Every constructor carries the
clang-computed type of the whole expression (parenthesised expressions share
their subexpression's type). -/
inductive Expr : Type where
  | declRef (ty : CType) (canon : Nat) : Expr
  | member (ty : CType) (canon : Nat) (base : Expr) : Expr
  | unary (ty : CType) (op : UnaryOp) (sub : Expr) : Expr
  | binary (ty : CType) (op : BinOp) (lhs rhs : Expr) : Expr
  | arraySub (ty : CType) (base idx : Expr) : Expr
  | paren (sub : Expr) : Expr
  | cast (ty : CType) (sub : Expr) : Expr
  | call (ty : CType) (arg : Expr) : Expr
  | cond (ty : CType) (c t e : Expr) : Expr
  | literal (ty : CType) : Expr
deriving Repr, DecidableEq

/-- `Expr::getType`: the type annotation of the node (a parenthesised
expression has the type of its subexpression). -/
def Expr.type : Expr → CType
  | Expr.declRef ty _ => ty
  | Expr.member ty _ _ => ty
  | Expr.unary ty _ _ => ty
  | Expr.binary ty _ _ _ => ty
  | Expr.arraySub ty _ _ => ty
  | Expr.paren s => s.type
  | Expr.cast ty _ => ty
  | Expr.call ty _ => ty
  | Expr.cond ty _ _ _ => ty
  | Expr.literal ty => ty

/-- `Expr::IgnoreParenCasts`: strip parentheses and casts until neither is
outermost. -/
def ignoreParenCasts : Expr → Expr
  | Expr.paren s => ignoreParenCasts s
  | Expr.cast _ s => ignoreParenCasts s
  | e => e

/-- A variable or field declaration occurrence: name, declaration kind,
declared type, canonical identity, and optional initializer expression. -/
structure Decl : Type where
  name : String
  kind : DeclKind
  type : CType
  canon : Nat
  init : Option Expr
deriving Repr, DecidableEq

/-- One item of the translation unit in traversal order: a declaration or a
statement (an expression tree, e.g. inside a function body). -/
inductive Node : Type where
  | decl (d : Decl) : Node
  | stmt (e : Expr) : Node
deriving Repr, DecidableEq

/-- All nodes of an expression tree in the preorder in which
`RecursiveASTVisitor` fires the `Visit...` callbacks. -/
def preorder : Expr → List Expr
  | Expr.declRef ty c => [Expr.declRef ty c]
  | Expr.member ty c b => Expr.member ty c b :: preorder b
  | Expr.unary ty op s => Expr.unary ty op s :: preorder s
  | Expr.binary ty op l r => Expr.binary ty op l r :: (preorder l ++ preorder r)
  | Expr.arraySub ty b i => Expr.arraySub ty b i :: (preorder b ++ preorder i)
  | Expr.paren s => Expr.paren s :: preorder s
  | Expr.cast ty s => Expr.cast ty s :: preorder s
  | Expr.call ty a => Expr.call ty a :: preorder a
  | Expr.cond ty c t e => Expr.cond ty c t e :: (preorder c ++ preorder t ++ preorder e)
  | Expr.literal ty => [Expr.literal ty]

/-- Insertion into a `SmallPtrSet`, modelled as an insertion-ordered
duplicate-free list: a no-op when the element is present, otherwise appended
at the end. -/
def insertOnce (l : List Nat) (c : Nat) : List Nat :=
  if l.contains c then l else l ++ [c]

/-- The analysis state owned by one invocation: `VisitedDecls`, `ValidDecls`
and `AddrTakenDecls` (sets of canonical declarations), `MaxIndirectLevel`,
and the per-level registry `AllPtrDecls` (the `DenseMap<int, DeclSet *>`,
modelled as a total function defaulting to the empty set). -/
structure CollectState : Type where
  VisitedDecls : List Nat
  ValidDecls : List Nat
  AddrTakenDecls : List Nat
  MaxIndirectLevel : Nat
  AllPtrDecls : Nat → List Nat

/-- The registry set at one indirection level (`AllPtrDecls[lvl]`, the empty
set when the level was never populated). -/
def declsAt (st : CollectState) (lvl : Nat) : List Nat :=
  st.AllPtrDecls lvl

/-- The state at the start of an invocation: all sets empty,
`MaxIndirectLevel` zero. -/
def initCollectState : CollectState :=
  { VisitedDecls := [], ValidDecls := [], AddrTakenDecls := [],
    MaxIndirectLevel := 0, AllPtrDecls := fun _ => [] }

/-- `ReducePointerLevel::addOneDecl`: insert the canonical declaration into
the registry set of its indirection level (allocating the set on first
use). -/
def addOneDecl (m : Nat → List Nat) (c : Nat) (IndirectLevel : Nat) :
    Nat → List Nat :=
  fun l => if l = IndirectLevel then insertOnce (m IndirectLevel) c else m l

/-- `PointerLevelCollectionVisitor::isVAArgField`: the name-based escape
hatch for the two fields produced by `__builtin_va_arg` lowering. -/
def isVAArgField (d : Decl) : Bool :=
  d.name == "reg_save_area" || d.name == "overflow_arg_area"

/-- `PointerLevelCollectionVisitor::VisitDeclaratorDecl`: skip the va-arg
field names and non-variable/non-field kinds; unwrap array types to the base
element type; skip non-pointer types; resolve to the canonical declaration
and skip if already visited; otherwise insert into `ValidDecls` and
`VisitedDecls`, compute the indirection level (the source asserts it is
positive, which holds because the type is a pointer type), raise
`MaxIndirectLevel` if this level is larger (the conditional assignment of
the source is the binary maximum), and register via `addOneDecl`. -/
def VisitDeclaratorDecl (st : CollectState) (d : Decl) : CollectState :=
  if isVAArgField d then st
  else if !(d.kind == DeclKind.field) && !(d.kind == DeclKind.var) then st
  else
    let Ty : CType :=
      match d.type with
      | CType.array elem => getArrayBaseElemType elem
      | t => t
    if !Ty.isPointer then st
    else if st.VisitedDecls.contains d.canon then st
    else
      let IndirectLevel : Nat := getPointerIndirectLevel Ty
      { st with ValidDecls := insertOnce st.ValidDecls d.canon,
                VisitedDecls := insertOnce st.VisitedDecls d.canon,
                MaxIndirectLevel := max st.MaxIndirectLevel IndirectLevel,
                AllPtrDecls := addOneDecl st.AllPtrDecls d.canon IndirectLevel }

/-- `ReducePointerLevel::getCanonicalDeclaratorDecl`: resolve a
`DeclRefExpr` or `MemberExpr` to the canonical declaration it references;
every other shape trips a `TransAssert` in the source, so callers guard the
shape first (modelled by `none`). -/
def getCanonicalDeclaratorDecl : Expr → Option Nat
  | Expr.declRef _ c => some c
  | Expr.member _ c _ => some c
  | _ => none

/-- `PointerLevelCollectionVisitor::VisitUnaryOperator`: on an address-of
operation whose operand, after `IgnoreParenCasts`, is a declaration
reference or a member access, add the operand's canonical declaration to
`AddrTakenDecls`; any other opcode or operand shape changes nothing. -/
def VisitUnaryOperator (st : CollectState) (op : UnaryOp) (sub : Expr) :
    CollectState :=
  if op != UnaryOp.addrOf then st
  else
    match getCanonicalDeclaratorDecl (ignoreParenCasts sub) with
    | some c => { st with AddrTakenDecls := insertOnce st.AddrTakenDecls c }
    | none => st

/-- `ReducePointerLevel::ignoreSubscriptExprParenCasts`: the source first
applies `IgnoreParenCasts` and then, while the result is an
`ArraySubscriptExpr`, replaces it by `IgnoreParenCasts` of its base.  Both
the source loop and these equations greedily remove the outermost
parenthesis, cast, or subscript until none applies, so they compute the same
normal form. -/
def ignoreSubscriptExprParenCasts : Expr → Expr
  | Expr.paren s => ignoreSubscriptExprParenCasts s
  | Expr.cast _ s => ignoreSubscriptExprParenCasts s
  | Expr.arraySub _ base _ => ignoreSubscriptExprParenCasts base
  | e => e

/-- `ReducePointerLevel::getRefDecl`: strip parentheses, casts and array
subscripts; a declaration reference or member access resolves to its
canonical declaration; otherwise the source asserts the head is a
dereference `UnaryOperator` and recurses into its operand, so any other
head shape aborts the invocation (modelled by `none`). -/
def getRefDecl : Expr → Option Nat
  | Expr.paren s => getRefDecl s
  | Expr.cast _ s => getRefDecl s
  | Expr.arraySub _ base _ => getRefDecl base
  | Expr.declRef _ c => some c
  | Expr.member _ c _ => some c
  | Expr.unary _ op sub => if op == UnaryOp.deref then getRefDecl sub else none
  | _ => none

/-- The left-hand-side shapes `getRefDecl` can resolve: after repeatedly
stripping parentheses, casts and array subscripts, a declaration reference,
a member access, or a dereference unary operator whose operand again has
this shape. -/
def goodLhs : Expr → Bool
  | Expr.paren s => goodLhs s
  | Expr.cast _ s => goodLhs s
  | Expr.arraySub _ base _ => goodLhs base
  | Expr.declRef _ _ => true
  | Expr.member _ _ _ => true
  | Expr.unary _ op sub => if op == UnaryOp.deref then goodLhs sub else false
  | _ => false

/-- The right-hand-side shapes `VisitBinaryOperator` treats as safe after
`IgnoreParenCasts`: a declaration reference, any unary-operator expression,
or an array-subscript expression. -/
def safeRhsShape : Expr → Bool
  | Expr.declRef _ _ => true
  | Expr.unary _ _ _ => true
  | Expr.arraySub _ _ _ => true
  | _ => false

/-- `PointerLevelCollectionVisitor::VisitBinaryOperator`: skip non-assignment
opcodes and non-pointer-typed left-hand sides; if the right-hand side, after
`IgnoreParenCasts`, is a declaration reference, a unary operator, or an
array subscript, change nothing; otherwise resolve the left-hand side via
`getRefDecl` (whose `TransAssert` aborts on unsupported shapes, modelled by
`none`) and erase the resolved canonical declaration from `ValidDecls`. -/
def VisitBinaryOperator (st : CollectState) (op : BinOp) (lhs rhs : Expr) :
    Option CollectState :=
  if !op.isAssignmentOp then some st
  else if !lhs.type.isPointer then some st
  else if safeRhsShape (ignoreParenCasts rhs) then some st
  else
    match getRefDecl lhs with
    | some c => some { st with ValidDecls := st.ValidDecls.erase c }
    | none => none

/-- Fire the collection visitor's expression callbacks on one node of the
preorder walk (only `UnaryOperator` and `BinaryOperator` nodes have
callbacks). -/
def visitExprNode (st : CollectState) (e : Expr) : Option CollectState :=
  match e with
  | Expr.unary _ op sub => some (VisitUnaryOperator st op sub)
  | Expr.binary _ op lhs rhs => VisitBinaryOperator st op lhs rhs
  | _ => some st

/-- Traverse one statement: fire the expression callbacks on every node of
the tree in preorder. -/
def collectStmt (st : CollectState) (e : Expr) : Option CollectState :=
  (preorder e).foldlM visitExprNode st

/-- Traverse one translation-unit item: a declaration fires
`VisitDeclaratorDecl` and then traverses its initializer (if any); a
statement traverses its expression tree. -/
def collectNode (st : CollectState) : Node → Option CollectState
  | Node.decl d =>
      match d.init with
      | some e => collectStmt (VisitDeclaratorDecl st d) e
      | none => some (VisitDeclaratorDecl st d)
  | Node.stmt e => collectStmt st e

/-- `ReducePointerLevel::HandleTopLevelDecl` over the whole translation
unit: run the collection visitor over every item in order, starting from the
fresh per-invocation state. -/
def runCollector (p : List Node) : Option CollectState :=
  List.foldlM collectNode initCollectState p

/-- The selector's running state: `ValidInstanceNum` (the running eligible
count) and `TheDecl` (the chosen canonical declaration, `none` until the
counter matches). -/
structure SelState : Type where
  ValidInstanceNum : Nat
  TheDecl : Option Nat
deriving Repr, DecidableEq

/-- One counted declaration inside `doAnalysis`: increment
`ValidInstanceNum` and record the declaration as chosen when the
transformation counter equals the new count. -/
def countOne (counter : Int) (s : SelState) (c : Nat) : SelState :=
  { ValidInstanceNum := s.ValidInstanceNum + 1,
    TheDecl :=
      if counter = ((s.ValidInstanceNum + 1 : Nat) : Int) then some c
      else s.TheDecl }

/-- The tier-1 loop body of `doAnalysis`: at `MaxIndirectLevel`, a
declaration is counted when it is still in `ValidDecls`; address-takenness
is not checked. -/
def tier1Visit (st : CollectState) (counter : Int) (s : SelState) (c : Nat) :
    SelState :=
  if st.ValidDecls.contains c then countOne counter s c else s

/-- The tier-2 loop body of `doAnalysis`: at levels below
`MaxIndirectLevel`, a declaration is counted when it is in `ValidDecls` and
not in `AddrTakenDecls`. -/
def tier2Visit (st : CollectState) (counter : Int) (s : SelState) (c : Nat) :
    SelState :=
  if st.ValidDecls.contains c && !st.AddrTakenDecls.contains c then
    countOne counter s c
  else s

/-- The levels visited by the tier-2 loop `for (Idx = MaxIndirectLevel - 1;
Idx > 0; --Idx)`: `MaxIndirectLevel - 1` down to `1`, strictly
descending. -/
def tier2Levels (m : Nat) : List Nat :=
  (List.range' 1 (m - 1)).reverse

/-- `ReducePointerLevel::doAnalysis`: run the tier-1 loop over the registry
set at `MaxIndirectLevel`, then the tier-2 loops over each shallower level
down to level 1, threading the running count and the chosen declaration. -/
def doAnalysis (st : CollectState) (counter : Int) : SelState :=
  let s1 := (declsAt st st.MaxIndirectLevel).foldl (tier1Visit st counter)
    { ValidInstanceNum := 0, TheDecl := none }
  (tier2Levels st.MaxIndirectLevel).foldl
    (fun s lvl => (declsAt st lvl).foldl (tier2Visit st counter) s) s1

/-- The declarations the tier-1 loop counts: the registry set at
`MaxIndirectLevel` filtered by membership in `ValidDecls`. -/
def tier1Filter (st : CollectState) : List Nat :=
  (declsAt st st.MaxIndirectLevel).filter (fun c => st.ValidDecls.contains c)

/-- The declarations the tier-2 loop counts at one level: the registry set
filtered by membership in `ValidDecls` and absence from `AddrTakenDecls`. -/
def tier2Filter (st : CollectState) (lvl : Nat) : List Nat :=
  (declsAt st lvl).filter
    (fun c => st.ValidDecls.contains c && !st.AddrTakenDecls.contains c)

/-- The concatenation of the tier-2 filtered registry sets over a list of
levels, in the order the levels are visited. -/
def tier2Concat (st : CollectState) (levels : List Nat) : List Nat :=
  levels.foldr (fun lvl acc => tier2Filter st lvl ++ acc) []

/-- The full eligibility order produced by `doAnalysis`: the tier-1
declarations at `MaxIndirectLevel`, then the tier-2 declarations of each
shallower level in descending level order. -/
def eligibleList (st : CollectState) : List Nat :=
  tier1Filter st ++ tier2Concat st (tier2Levels st.MaxIndirectLevel)

/-- The declaration a counter value picks out of a counted list: `none`
unless the counter exceeds the count accumulated before the list, otherwise
the element at the offset the counter reaches inside the list. -/
def pickAt (counter : Int) (base : Nat) (l : List Nat) : Option Nat :=
  if counter ≤ (base : Int) then none
  else l[(counter - (base : Int) - 1).toNat]?

/-- The outcome classification of one invocation
(`TransformationError`): `TransMaxInstanceError` is the usage error for a
counter beyond the eligible count, `TransInternalError` the post-rewrite
diagnostic failure; success is modelled by `none` at the use site. -/
inductive TransformationError : Type where
  | TransMaxInstanceError : TransformationError
  | TransInternalError : TransformationError
deriving Repr, DecidableEq

/-- `ReducePointerLevel::rewriteVarDecl`: an empty TODO stub in the source;
it performs no edit. -/
def rewriteVarDecl (d : Decl) : Decl := d

/-- `ReducePointerLevel::rewriteFieldDecl`: an empty TODO stub in the
source; it performs no edit. -/
def rewriteFieldDecl (d : Decl) : Decl := d

/-- One node under `PointerLevelRewriteVisitor`: `VisitVarDecl` and
`VisitFieldDecl` invoke `rewriteVarDecl` / `rewriteFieldDecl` on occurrences
of the chosen canonical declaration (both empty TODO stubs), the
aggregate-initializer branches end in the TODO stubs `rewriteRecordInit` and
`rewriteArrayInit`, and all four expression visitors are TODO stubs, so a
statement is returned unchanged. -/
def rewriteNode (chosen : Nat) : Node → Node
  | Node.decl d =>
      if d.canon == chosen && d.kind == DeclKind.field then
        Node.decl (rewriteFieldDecl d)
      else if d.canon == chosen then Node.decl (rewriteVarDecl d)
      else Node.decl d
  | Node.stmt e => Node.stmt e

/-- The rewrite traversal over the whole translation unit for the chosen
declaration. -/
def rewriteProgram (p : List Node) (chosen : Nat) : List Node :=
  p.map (rewriteNode chosen)

/-- The observable outcome of one invocation: the final running count, the
chosen declaration, the reported error (if any), the resulting program, and
whether the rewrite traversal ran. -/
structure RunResult : Type where
  ValidInstanceNum : Nat
  TheDecl : Option Nat
  TransError : Option TransformationError
  program : List Node
  didRewrite : Bool
deriving Repr, DecidableEq

/-- `ReducePointerLevel::HandleTranslationUnit` (after the collection
traversal has run): run `doAnalysis`; in query mode return at once; report
`TransMaxInstanceError` when the counter exceeds `ValidInstanceNum`; the
source then asserts `TheDecl` is non-null (modelled by `none` on failure)
and runs the rewrite traversal, whose callbacks are all TODO stubs, so no
diagnostic error can arise from it and the final error state stays
success. -/
def HandleTranslationUnit (p : List Node) (counter : Int)
    (QueryInstanceOnly : Bool) : Option RunResult :=
  match runCollector p with
  | none => none
  | some st =>
      let r := doAnalysis st counter
      if QueryInstanceOnly then
        some { ValidInstanceNum := r.ValidInstanceNum, TheDecl := r.TheDecl,
               TransError := none, program := p, didRewrite := false }
      else if ((r.ValidInstanceNum : Int) < counter) then
        some { ValidInstanceNum := r.ValidInstanceNum, TheDecl := r.TheDecl,
               TransError := some TransformationError.TransMaxInstanceError,
               program := p, didRewrite := false }
      else
        match r.TheDecl with
        | none => none
        | some c =>
            some { ValidInstanceNum := r.ValidInstanceNum, TheDecl := some c,
                   TransError := none, program := rewriteProgram p c,
                   didRewrite := true }

/-! ### Concrete example programs -/

/-- The end-to-end scenario program: `int **p; int *q; ... **p ...`, with
`q` never address-taken and never pointer-assigned.  `p` has canonical
identity `0`, `q` has canonical identity `1`. -/
def progPQ : List Node :=
  [Node.decl { name := "p", kind := DeclKind.var,
               type := CType.pointer (CType.pointer CType.scalar),
               canon := 0, init := none },
   Node.decl { name := "q", kind := DeclKind.var,
               type := CType.pointer CType.scalar, canon := 1, init := none },
   Node.stmt (Expr.unary CType.scalar UnaryOp.deref
     (Expr.unary (CType.pointer CType.scalar) UnaryOp.deref
       (Expr.declRef (CType.pointer (CType.pointer CType.scalar)) 0)))]

/-- The collector state reached on `progPQ`. -/
def stPQ : CollectState :=
  (runCollector progPQ).getD initCollectState

/-- A one-declaration program: `int *p;` with canonical identity `0`. -/
def progOne : List Node :=
  [Node.decl { name := "p", kind := DeclKind.var,
               type := CType.pointer CType.scalar, canon := 0, init := none }]

/-- The collector state reached on `progOne`. -/
def stOne : CollectState :=
  (runCollector progOne).getD initCollectState

/-- A program with two redeclarations of one entity (`extern int *x;`
followed by `int *x;`, both resolving to canonical identity `7`). -/
def progRedecl : List Node :=
  [Node.decl { name := "x", kind := DeclKind.var,
               type := CType.pointer CType.scalar, canon := 7, init := none },
   Node.decl { name := "x", kind := DeclKind.var,
               type := CType.pointer CType.scalar, canon := 7, init := none }]

/-- The collector state reached on `progRedecl`. -/
def stRedecl : CollectState :=
  (runCollector progRedecl).getD initCollectState

/-- A program whose one statement is the assignment `*f() = 0` with a
pointer-typed left-hand side: the right-hand side is a literal (not one of
the three safe shapes) and the left-hand side is rooted in a call, so
`getRefDecl` hits its assertion. -/
def progAbort : List Node :=
  [Node.stmt (Expr.binary (CType.pointer CType.scalar) BinOp.assign
     (Expr.unary (CType.pointer CType.scalar) UnaryOp.deref
       (Expr.call (CType.pointer (CType.pointer CType.scalar))
         (Expr.literal CType.scalar)))
     (Expr.literal (CType.pointer CType.scalar)))]

/-- An ordinary user-written global `int **reg_save_area;` that merely
reuses the va-arg field name, with canonical identity `3`. -/
def declVA : Decl :=
  { name := "reg_save_area", kind := DeclKind.var,
    type := CType.pointer (CType.pointer CType.scalar), canon := 3,
    init := none }

/-- A collector state holding one valid declaration (canonical identity
`5`) registered at level 1, used to exercise the assignment visitor. -/
def stAssign : CollectState :=
  { VisitedDecls := [5], ValidDecls := [5], AddrTakenDecls := [],
    MaxIndirectLevel := 1,
    AllPtrDecls := fun l => if l = 1 then [5] else [] }

/-! ### Basic facts about the set model -/

theorem contains_iff_mem (l : List Nat) (a : Nat) :
    l.contains a = true ↔ a ∈ l :=
  List.elem_iff

theorem mem_insertOnce (l : List Nat) (c a : Nat) :
    a ∈ insertOnce l c ↔ a ∈ l ∨ a = c := by
  unfold insertOnce
  split
  · rename_i h
    rw [contains_iff_mem] at h
    constructor
    · exact Or.inl
    · rintro (ha | rfl)
      · exact ha
      · exact h
  · simp

theorem nodup_insertOnce (l : List Nat) (c : Nat) (h : l.Nodup) :
    (insertOnce l c).Nodup := by
  unfold insertOnce
  split
  · exact h
  · rename_i hc
    rw [List.nodup_append]
    refine ⟨h, List.nodup_singleton c, ?_⟩
    intro a ha hmem
    simp only [List.mem_singleton] at hmem
    subst hmem
    exact hc (by rw [contains_iff_mem]; exact ha)

theorem not_contains_iff (l : List Nat) (a : Nat) :
    (!l.contains a) = true ↔ a ∉ l := by
  simp [contains_iff_mem]

/-! ### The counting fold of `doAnalysis` -/

theorem pickAt_nil (counter : Int) (base : Nat) :
    pickAt counter base [] = none := by
  unfold pickAt
  split <;> simp

theorem pickAt_cons (counter : Int) (base : Nat) (c : Nat) (l : List Nat) :
    pickAt counter base (c :: l) =
      if counter = ((base + 1 : Nat) : Int) then some c
      else pickAt counter (base + 1) l := by
  unfold pickAt
  by_cases h0 : counter ≤ (base : Int)
  · rw [if_pos h0]
    rw [if_neg (by push_cast; omega), if_pos (by push_cast; omega)]
  · rw [if_neg h0]
    by_cases h1 : counter = ((base + 1 : Nat) : Int)
    · rw [if_pos h1]
      have : (counter - (base : Int) - 1).toNat = 0 := by push_cast at h1 ⊢; omega
      rw [this, List.getElem?_cons_zero]
    · rw [if_neg h1]
      have h2 : ¬ counter ≤ ((base + 1 : Nat) : Int) := by push_cast at h1 ⊢; omega
      rw [if_neg h2]
      have h3 : (counter - (base : Int) - 1).toNat =
          (counter - ((base + 1 : Nat) : Int) - 1).toNat + 1 := by
        push_cast at h1 h0 ⊢; omega
      rw [h3, List.getElem?_cons_succ]

theorem countOne_foldl (counter : Int) (l : List Nat) (s : SelState) :
    l.foldl (countOne counter) s =
      { ValidInstanceNum := s.ValidInstanceNum + l.length,
        TheDecl :=
          match pickAt counter s.ValidInstanceNum l with
          | some c => some c
          | none => s.TheDecl } := by
  induction l generalizing s with
  | nil =>
      simp [pickAt_nil]
  | cons c l ih =>
      rw [List.foldl_cons, ih]
      rw [pickAt_cons]
      by_cases h : counter = ((s.ValidInstanceNum + 1 : Nat) : Int)
      · rw [if_pos h]
        have hnone : pickAt counter (s.ValidInstanceNum + 1) l = none := by
          unfold pickAt
          rw [if_pos (le_of_eq h)]
        refine congrArg₂ SelState.mk ?_ ?_
        · simp [countOne]
          omega
        · simp only [countOne, hnone]
          rw [if_pos h]
      · rw [if_neg h]
        refine congrArg₂ SelState.mk ?_ ?_
        · simp [countOne]
          omega
        · cases hp : pickAt counter (s.ValidInstanceNum + 1) l with
          | some d => simp only [countOne, hp]
          | none => simp only [countOne, hp, if_neg h]

theorem guard_foldl_eq_filter (g : Nat → Bool) (counter : Int) (l : List Nat)
    (s : SelState) :
    l.foldl (fun s c => if g c then countOne counter s c else s) s =
      (l.filter g).foldl (countOne counter) s := by
  induction l generalizing s with
  | nil => rfl
  | cons c l ih =>
      by_cases h : g c <;> simp [List.filter_cons, h, ih]

theorem tier1_foldl (st : CollectState) (counter : Int) (l : List Nat)
    (s : SelState) :
    l.foldl (tier1Visit st counter) s =
      (l.filter (fun c => st.ValidDecls.contains c)).foldl
        (countOne counter) s :=
  guard_foldl_eq_filter (fun c => st.ValidDecls.contains c) counter l s

theorem tier2_foldl (st : CollectState) (counter : Int) (l : List Nat)
    (s : SelState) :
    l.foldl (tier2Visit st counter) s =
      (l.filter
        (fun c => st.ValidDecls.contains c && !st.AddrTakenDecls.contains c)).foldl
        (countOne counter) s :=
  guard_foldl_eq_filter
    (fun c => st.ValidDecls.contains c && !st.AddrTakenDecls.contains c)
    counter l s

theorem tier2_levels_foldl (st : CollectState) (counter : Int)
    (levels : List Nat) (s : SelState) :
    levels.foldl
        (fun s lvl => (declsAt st lvl).foldl (tier2Visit st counter) s) s =
      (tier2Concat st levels).foldl (countOne counter) s := by
  induction levels generalizing s with
  | nil => rfl
  | cons lvl ls ih =>
      rw [List.foldl_cons, ih, tier2_foldl]
      show _ = (tier2Concat st (lvl :: ls)).foldl (countOne counter) s
      have : tier2Concat st (lvl :: ls) = tier2Filter st lvl ++ tier2Concat st ls := rfl
      rw [this, List.foldl_append]
      rfl

/-- The central description of the selector: `doAnalysis` returns the length
of `eligibleList` as the running count, and picks the declaration the
counter indexes inside `eligibleList` (1-based), if any. -/
theorem doAnalysis_eq (st : CollectState) (counter : Int) :
    doAnalysis st counter =
      { ValidInstanceNum := (eligibleList st).length,
        TheDecl := pickAt counter 0 (eligibleList st) } := by
  unfold doAnalysis
  rw [tier1_foldl, tier2_levels_foldl]
  show (tier2Concat st (tier2Levels st.MaxIndirectLevel)).foldl (countOne counter)
      ((tier1Filter st).foldl (countOne counter) { ValidInstanceNum := 0, TheDecl := none }) = _
  rw [← List.foldl_append]
  rw [countOne_foldl]
  show ({ ValidInstanceNum := 0 + (eligibleList st).length,
          TheDecl := match pickAt counter 0 (eligibleList st) with
                     | some c => some c
                     | none => none } : SelState) = _
  refine congrArg₂ SelState.mk (by omega) ?_
  cases pickAt counter 0 (eligibleList st) <;> rfl

theorem pickAt_of_nat (l : List Nat) (i : Nat) (hi : 1 ≤ i) :
    pickAt (i : Int) 0 l = l[i - 1]? := by
  unfold pickAt
  rw [if_neg (by push_cast; omega)]
  have : (((i : Nat) : Int) - ((0 : Nat) : Int) - 1).toNat = i - 1 := by
    push_cast; omega
  rw [this]

theorem pickAt_isSome (counter : Int) (l : List Nat) :
    (pickAt counter 0 l).isSome = true ↔
      1 ≤ counter ∧ counter ≤ (l.length : Int) := by
  unfold pickAt
  split
  · rename_i h
    simp only [Option.isSome_none, Bool.false_eq_true, false_iff]
    push_cast at h
    omega
  · rename_i h
    have hsome : (l[(counter - ((0 : Nat) : Int) - 1).toNat]?).isSome = true ↔
        (counter - ((0 : Nat) : Int) - 1).toNat < l.length := by
      rw [Option.isSome_iff_exists]
      constructor
      · rintro ⟨a, ha⟩
        exact (List.getElem?_eq_some.mp ha).1
      · intro hlt
        exact ⟨_, List.getElem?_eq_getElem hlt⟩
    rw [hsome]
    push_cast at h ⊢
    omega

theorem pickAt_none_of_gt (counter : Int) (l : List Nat)
    (h : (l.length : Int) < counter) : pickAt counter 0 l = none := by
  cases hp : pickAt counter 0 l with
  | none => rfl
  | some c =>
      have : (pickAt counter 0 l).isSome = true := by rw [hp]; rfl
      rw [pickAt_isSome] at this
      omega

/-! ### Invariants of the collection traversal -/

/-- The structural invariants of reachable collector states: every
registered declaration was visited; registration happens only at positive
indirection levels; each canonical declaration sits in the registry set of
at most one level, at most once; and `ValidDecls` is duplicate-free. -/
structure CInv (st : CollectState) : Prop where
  regVisited : ∀ lvl c, c ∈ declsAt st lvl → c ∈ st.VisitedDecls
  levelPos : ∀ lvl c, c ∈ declsAt st lvl → 1 ≤ lvl
  oneLevel : ∀ l1 l2 c, c ∈ declsAt st l1 → c ∈ declsAt st l2 → l1 = l2
  levelNodup : ∀ lvl, (declsAt st lvl).Nodup
  validNodup : st.ValidDecls.Nodup

theorem CInv_init : CInv initCollectState := by
  constructor <;> simp [initCollectState, declsAt]

theorem CInv_of_parts {st st' : CollectState} (h : CInv st)
    (hA : st'.AllPtrDecls = st.AllPtrDecls)
    (hV : st'.VisitedDecls = st.VisitedDecls)
    (hvd : st'.ValidDecls = st.ValidDecls) : CInv st' := by
  constructor
  · intro lvl c hc
    rw [hV]
    exact h.regVisited lvl c (by rw [declsAt, hA] at hc; exact hc)
  · intro lvl c hc
    exact h.levelPos lvl c (by rw [declsAt, hA] at hc; exact hc)
  · intro l1 l2 c h1 h2
    rw [declsAt, hA] at h1 h2
    exact h.oneLevel l1 l2 c h1 h2
  · intro lvl
    rw [declsAt, hA]
    exact h.levelNodup lvl
  · rw [hvd]
    exact h.validNodup

theorem isPointer_level_pos (t : CType) (h : t.isPointer = true) :
    1 ≤ getPointerIndirectLevel t := by
  cases t with
  | pointer s => simp [getPointerIndirectLevel]
  | scalar => simp [CType.isPointer] at h
  | array s => simp [CType.isPointer] at h

/-- The registered state after `VisitDeclaratorDecl` adds a not-yet-visited
canonical declaration at a positive level keeps all structural
invariants, whatever the new `MaxIndirectLevel` is. -/
theorem CInv_register (st : CollectState) (cn L M : Nat) (hL : 1 ≤ L)
    (hnew : cn ∉ st.VisitedDecls) (h : CInv st) :
    CInv { VisitedDecls := insertOnce st.VisitedDecls cn,
           ValidDecls := insertOnce st.ValidDecls cn,
           AddrTakenDecls := st.AddrTakenDecls,
           MaxIndirectLevel := M,
           AllPtrDecls := addOneDecl st.AllPtrDecls cn L } := by
  have hnotreg : ∀ lvl, cn ∉ declsAt st lvl := fun lvl hc =>
    hnew (h.regVisited lvl cn hc)
  have hdecls : ∀ lvl, declsAt
      { VisitedDecls := insertOnce st.VisitedDecls cn,
        ValidDecls := insertOnce st.ValidDecls cn,
        AddrTakenDecls := st.AddrTakenDecls,
        MaxIndirectLevel := M,
        AllPtrDecls := addOneDecl st.AllPtrDecls cn L } lvl =
      if lvl = L then insertOnce (declsAt st L) cn else declsAt st lvl := by
    intro lvl
    rfl
  constructor
  · intro lvl c hc
    rw [hdecls] at hc
    show c ∈ insertOnce st.VisitedDecls cn
    rw [mem_insertOnce]
    split at hc
    · rcases (mem_insertOnce _ _ _).mp hc with hold | rfl
      · exact Or.inl (h.regVisited L c hold)
      · exact Or.inr rfl
    · exact Or.inl (h.regVisited lvl c hc)
  · intro lvl c hc
    rw [hdecls] at hc
    split at hc
    · rename_i heq
      rw [heq]
      exact hL
    · exact h.levelPos lvl c hc
  · intro l1 l2 c h1 h2
    rw [hdecls] at h1 h2
    by_cases hcanon : c = cn
    · subst hcanon
      have hside : ∀ lv : Nat,
          c ∈ (if lv = L then insertOnce (declsAt st L) c else declsAt st lv) →
          lv = L := by
        intro lv hmem
        split at hmem
        · assumption
        · exact absurd hmem (hnotreg lv)
      rw [hside l1 h1, hside l2 h2]
    · have hside : ∀ lv : Nat,
          c ∈ (if lv = L then insertOnce (declsAt st L) cn else declsAt st lv) →
          c ∈ declsAt st lv := by
        intro lv hmem
        split at hmem
        · rename_i heq
          rcases (mem_insertOnce _ _ _).mp hmem with hold | hbad
          · rw [heq]; exact hold
          · exact absurd hbad hcanon
        · exact hmem
      exact h.oneLevel l1 l2 c (hside l1 h1) (hside l2 h2)
  · intro lvl
    rw [hdecls]
    split
    · exact nodup_insertOnce _ _ (h.levelNodup L)
    · exact h.levelNodup lvl
  · exact nodup_insertOnce _ _ h.validNodup

/-- `VisitDeclaratorDecl` with the array/base-type distinction abstracted
away preserves the invariants. -/
theorem CInv_visitDecl_aux (st : CollectState) (cn : Nat) (Ty : CType)
    (h : CInv st) :
    CInv (if !Ty.isPointer then st
          else if st.VisitedDecls.contains cn then st
          else
            { st with ValidDecls := insertOnce st.ValidDecls cn,
                      VisitedDecls := insertOnce st.VisitedDecls cn,
                      MaxIndirectLevel :=
                        max st.MaxIndirectLevel (getPointerIndirectLevel Ty),
                      AllPtrDecls :=
                        addOneDecl st.AllPtrDecls cn
                          (getPointerIndirectLevel Ty) }) := by
  split
  · exact h
  split
  · exact h
  rename_i hptr hvisited
  rw [Bool.not_eq_true', Bool.not_eq_false] at hptr
  exact CInv_register st cn (getPointerIndirectLevel Ty) _
    (isPointer_level_pos Ty hptr)
    (fun hc => hvisited (by rw [contains_iff_mem]; exact hc)) h

theorem CInv_visitDecl (st : CollectState) (d : Decl) (h : CInv st) :
    CInv (VisitDeclaratorDecl st d) := by
  unfold VisitDeclaratorDecl
  split
  · exact h
  split
  · exact h
  split
  · exact CInv_visitDecl_aux st d.canon _ h
  · exact CInv_visitDecl_aux st d.canon _ h

theorem CInv_visitUnary (st : CollectState) (op : UnaryOp) (sub : Expr)
    (h : CInv st) : CInv (VisitUnaryOperator st op sub) := by
  unfold VisitUnaryOperator
  split
  · exact h
  split
  · exact CInv_of_parts h rfl rfl rfl
  · exact h

theorem CInv_visitBinary (st st' : CollectState) (op : BinOp) (lhs rhs : Expr)
    (h : CInv st) (heq : VisitBinaryOperator st op lhs rhs = some st') :
    CInv st' := by
  unfold VisitBinaryOperator at heq
  split at heq
  · cases heq; exact h
  split at heq
  · cases heq; exact h
  split at heq
  · cases heq; exact h
  split at heq
  · rename_i c hc
    cases heq
    constructor
    · exact h.regVisited
    · exact h.levelPos
    · exact h.oneLevel
    · exact h.levelNodup
    · exact h.validNodup.erase c
  · cases heq

theorem CInv_visitExprNode (st st' : CollectState) (e : Expr) (h : CInv st)
    (heq : visitExprNode st e = some st') : CInv st' := by
  unfold visitExprNode at heq
  split at heq
  · cases heq
    exact CInv_visitUnary _ _ _ h
  · exact CInv_visitBinary _ _ _ _ _ h heq
  · cases heq
    exact h

theorem foldlM_preserve {α : Type} {P : CollectState → Prop}
    (f : CollectState → α → Option CollectState)
    (hf : ∀ s a s', P s → f s a = some s' → P s') :
    ∀ (l : List α) (s s' : CollectState), P s →
      List.foldlM f s l = some s' → P s' := by
  intro l
  induction l with
  | nil =>
      intro s s' hs hfold
      rw [List.foldlM_nil] at hfold
      cases hfold
      exact hs
  | cons a l ih =>
      intro s s' hs hfold
      rw [List.foldlM_cons] at hfold
      rcases Option.bind_eq_some.mp hfold with ⟨s1, h1, h2⟩
      exact ih s1 s' (hf s a s1 hs h1) h2

theorem CInv_collectStmt (st st' : CollectState) (e : Expr) (h : CInv st)
    (heq : collectStmt st e = some st') : CInv st' :=
  foldlM_preserve visitExprNode
    (fun s a s' hs h1 => CInv_visitExprNode s s' a hs h1)
    (preorder e) st st' h heq

theorem CInv_collectNode (st st' : CollectState) (n : Node) (h : CInv st)
    (heq : collectNode st n = some st') : CInv st' := by
  cases n with
  | decl d =>
      simp only [collectNode] at heq
      have h1 : CInv (VisitDeclaratorDecl st d) := CInv_visitDecl st d h
      cases hinit : d.init with
      | some e =>
          rw [hinit] at heq
          exact CInv_collectStmt _ _ _ h1 heq
      | none =>
          rw [hinit] at heq
          cases heq
          exact h1
  | stmt e =>
      simp only [collectNode] at heq
      exact CInv_collectStmt _ _ _ h heq

/-- Every state produced by a complete collection traversal satisfies the
structural invariants. -/
theorem CInv_runCollector (p : List Node) (st : CollectState)
    (h : runCollector p = some st) : CInv st :=
  foldlM_preserve collectNode
    (fun s a s' hs h1 => CInv_collectNode s s' a hs h1)
    p initCollectState st CInv_init h

/-! ### The eligibility order -/

theorem mem_tier2Levels (m lvl : Nat) :
    lvl ∈ tier2Levels m ↔ 1 ≤ lvl ∧ lvl < m := by
  unfold tier2Levels
  rw [List.mem_reverse, List.mem_range'_1]
  omega

theorem nodup_tier2Levels (m : Nat) : (tier2Levels m).Nodup := by
  unfold tier2Levels
  rw [List.nodup_reverse]
  exact List.nodup_range' 1 (m - 1)

theorem mem_tier2Concat (st : CollectState) (levels : List Nat) (c : Nat) :
    c ∈ tier2Concat st levels ↔ ∃ lvl ∈ levels, c ∈ tier2Filter st lvl := by
  induction levels with
  | nil => simp [tier2Concat]
  | cons lvl ls ih =>
      have hstep : tier2Concat st (lvl :: ls) =
          tier2Filter st lvl ++ tier2Concat st ls := rfl
      rw [hstep, List.mem_append, ih]
      simp

theorem mem_tier1Filter (st : CollectState) (c : Nat) :
    c ∈ tier1Filter st ↔
      c ∈ declsAt st st.MaxIndirectLevel ∧ c ∈ st.ValidDecls := by
  unfold tier1Filter
  rw [List.mem_filter, contains_iff_mem]

theorem mem_tier2Filter (st : CollectState) (lvl c : Nat) :
    c ∈ tier2Filter st lvl ↔
      c ∈ declsAt st lvl ∧ c ∈ st.ValidDecls ∧ c ∉ st.AddrTakenDecls := by
  unfold tier2Filter
  rw [List.mem_filter]
  simp only [Bool.and_eq_true, contains_iff_mem, not_contains_iff]

/-- Membership in the eligibility order: a declaration is eligible exactly
when it is registered at `MaxIndirectLevel` and still valid (tier 1,
address-takenness not consulted), or registered at some level strictly
between `0` and `MaxIndirectLevel`, still valid, and not address-taken
(tier 2). -/
theorem mem_eligibleList (st : CollectState) (c : Nat) :
    c ∈ eligibleList st ↔
      (c ∈ declsAt st st.MaxIndirectLevel ∧ c ∈ st.ValidDecls) ∨
      (∃ lvl, 1 ≤ lvl ∧ lvl < st.MaxIndirectLevel ∧ c ∈ declsAt st lvl ∧
        c ∈ st.ValidDecls ∧ c ∉ st.AddrTakenDecls) := by
  unfold eligibleList
  rw [List.mem_append, mem_tier1Filter, mem_tier2Concat]
  constructor
  · rintro (h1 | ⟨lvl, hlvl, hmem⟩)
    · exact Or.inl h1
    · rw [mem_tier2Levels] at hlvl
      rw [mem_tier2Filter] at hmem
      exact Or.inr ⟨lvl, hlvl.1, hlvl.2, hmem.1, hmem.2.1, hmem.2.2⟩
  · rintro (h1 | ⟨lvl, h1, h2, h3, h4, h5⟩)
    · exact Or.inl h1
    · refine Or.inr ⟨lvl, ?_, ?_⟩
      · rw [mem_tier2Levels]; exact ⟨h1, h2⟩
      · rw [mem_tier2Filter]; exact ⟨h3, h4, h5⟩

theorem nodup_tier2Concat (st : CollectState) (h : CInv st)
    (levels : List Nat) (hls : levels.Nodup) :
    (tier2Concat st levels).Nodup := by
  induction levels with
  | nil => exact List.nodup_nil
  | cons lvl ls ih =>
      have hstep : tier2Concat st (lvl :: ls) =
          tier2Filter st lvl ++ tier2Concat st ls := rfl
      rw [hstep, List.nodup_append]
      rw [List.nodup_cons] at hls
      refine ⟨List.Nodup.filter _ (h.levelNodup lvl), ih hls.2, ?_⟩
      intro c hc1 hc2
      rw [mem_tier2Filter] at hc1
      rw [mem_tier2Concat] at hc2
      rcases hc2 with ⟨lvl', hlvl', hmem'⟩
      rw [mem_tier2Filter] at hmem'
      have : lvl = lvl' := h.oneLevel lvl lvl' c hc1.1 hmem'.1
      exact hls.1 (this ▸ hlvl')

/-- On reachable collector states the eligibility order lists each
canonical declaration at most once: no declaration is counted at two
levels, or twice at one level. -/
theorem nodup_eligibleList (st : CollectState) (h : CInv st) :
    (eligibleList st).Nodup := by
  unfold eligibleList
  rw [List.nodup_append]
  refine ⟨List.Nodup.filter _ (h.levelNodup st.MaxIndirectLevel),
    nodup_tier2Concat st h _ (nodup_tier2Levels st.MaxIndirectLevel), ?_⟩
  intro c hc1 hc2
  rw [mem_tier1Filter] at hc1
  rw [mem_tier2Concat] at hc2
  rcases hc2 with ⟨lvl', hlvl', hmem'⟩
  rw [mem_tier2Levels] at hlvl'
  rw [mem_tier2Filter] at hmem'
  have : st.MaxIndirectLevel = lvl' :=
    h.oneLevel st.MaxIndirectLevel lvl' c hc1.1 hmem'.1
  omega

/-! ### Auxiliary facts for the claims -/

theorem getRefDecl_isSome (e : Expr) : (getRefDecl e).isSome = goodLhs e := by
  induction e with
  | declRef ty c => rfl
  | member ty c b ihb => rfl
  | unary ty op sub ih =>
      show (if op == UnaryOp.deref then getRefDecl sub else none).isSome =
        (if op == UnaryOp.deref then goodLhs sub else false)
      split
      · exact ih
      · rfl
  | binary ty op l r ihl ihr => rfl
  | arraySub ty b i ihb ihi => exact ihb
  | paren s ih => exact ih
  | cast ty s ih => exact ih
  | call ty a ih => rfl
  | cond ty c t e ihc iht ihe => rfl
  | literal ty => rfl

/-! ### The claims -/

/-- Claim C1: selection ordering is two-tiered — `doAnalysis` counts, at
`MaxIndirectLevel`, every registered declaration still in `ValidDecls`
without consulting `AddrTakenDecls`, and at every level from
`MaxIndirectLevel - 1` down to `1` (strictly descending) only declarations
in `ValidDecls` and absent from `AddrTakenDecls`; hence a valid declaration
at the maximum level is eligible even when address-taken, and an
address-taken declaration registered at a shallower level is never
eligible. -/
theorem selection_two_tier_ordering (p : List Node) (st : CollectState)
    (counter : Int) (c : Nat) (h : runCollector p = some st) :
    (doAnalysis st counter).ValidInstanceNum = (eligibleList st).length ∧
    (c ∈ eligibleList st ↔
      (c ∈ declsAt st st.MaxIndirectLevel ∧ c ∈ st.ValidDecls) ∨
      (∃ lvl, 1 ≤ lvl ∧ lvl < st.MaxIndirectLevel ∧ c ∈ declsAt st lvl ∧
        c ∈ st.ValidDecls ∧ c ∉ st.AddrTakenDecls)) ∧
    (c ∈ declsAt st st.MaxIndirectLevel → c ∈ st.ValidDecls →
      c ∈ eligibleList st) ∧
    (∀ lvl, lvl < st.MaxIndirectLevel → c ∈ declsAt st lvl →
      c ∈ st.AddrTakenDecls → c ∉ eligibleList st) := by
  have hinv := CInv_runCollector p st h
  refine ⟨by rw [doAnalysis_eq], mem_eligibleList st c, ?_, ?_⟩
  · intro h1 h2
    rw [mem_eligibleList]
    exact Or.inl ⟨h1, h2⟩
  · intro lvl hlt hmem haddr hel
    rw [mem_eligibleList] at hel
    rcases hel with ⟨h1, _⟩ | ⟨lvl', _, hlt', hmem', _, haddr'⟩
    · have := hinv.oneLevel _ _ _ h1 hmem
      omega
    · have heqlvl : lvl' = lvl := hinv.oneLevel _ _ _ hmem' hmem
      subst heqlvl
      exact haddr' haddr

/-- Witness for C1 on the two-variable program: the collector succeeds, the
count matches the eligibility order's length, and the deepest declaration
`p` (at `MaxIndirectLevel`, valid) is eligible. -/
theorem selection_two_tier_ordering_witness :
    runCollector progPQ = some stPQ ∧
    (doAnalysis stPQ 1).ValidInstanceNum = (eligibleList stPQ).length ∧
    0 ∈ eligibleList stPQ := by
  have h : runCollector progPQ = some stPQ := rfl
  have hthm := selection_two_tier_ordering progPQ stPQ 1 0 h
  exact ⟨h, hthm.1, hthm.2.2.1 (by decide) (by decide)⟩

/-- Claim C2: the reported count equals the number of declarations that
survive the two-tier filtering, each counted exactly once
(`eligibleList` is duplicate-free on reachable states); for every index in
`1..count` the selector picks the declaration at that position, distinct
indices pick distinct declarations, and every surviving declaration is
picked by some index — a bijection between `1..count` and the eligible
set. -/
theorem selector_count_bijection (p : List Node) (st : CollectState)
    (counter : Int) (h : runCollector p = some st) :
    (doAnalysis st counter).ValidInstanceNum = (eligibleList st).length ∧
    (eligibleList st).Nodup ∧
    (∀ i : Nat, 1 ≤ i → i ≤ (eligibleList st).length →
      (doAnalysis st (i : Int)).TheDecl = (eligibleList st)[i - 1]?) ∧
    (∀ i : Nat, 1 ≤ i → i ≤ (eligibleList st).length →
      ((doAnalysis st (i : Int)).TheDecl).isSome = true) ∧
    (∀ i j : Nat, 1 ≤ i → i ≤ (eligibleList st).length →
      1 ≤ j → j ≤ (eligibleList st).length →
      (doAnalysis st (i : Int)).TheDecl = (doAnalysis st (j : Int)).TheDecl →
      i = j) ∧
    (∀ c, c ∈ eligibleList st → ∃ i : Nat, 1 ≤ i ∧
      i ≤ (eligibleList st).length ∧
      (doAnalysis st (i : Int)).TheDecl = some c) := by
  have hinv := CInv_runCollector p st h
  have hnodup := nodup_eligibleList st hinv
  have hidx : ∀ i : Nat, 1 ≤ i → i ≤ (eligibleList st).length →
      (doAnalysis st (i : Int)).TheDecl = (eligibleList st)[i - 1]? := by
    intro i h1 h2
    rw [doAnalysis_eq]
    exact pickAt_of_nat (eligibleList st) i h1
  have hsome : ∀ (i : Nat) (h1 : 1 ≤ i)
      (h2 : i ≤ (eligibleList st).length),
      (doAnalysis st (i : Int)).TheDecl = some ((eligibleList st).get
        ⟨i - 1, by omega⟩) := by
    intro i h1 h2
    rw [hidx i h1 h2]
    rw [List.getElem?_eq_getElem (by omega)]
    rfl
  refine ⟨by rw [doAnalysis_eq], hnodup, hidx, ?_, ?_, ?_⟩
  · intro i h1 h2
    rw [hsome i h1 h2]
    rfl
  · intro i j hi1 hi2 hj1 hj2 heqd
    rw [hsome i hi1 hi2, hsome j hj1 hj2] at heqd
    have heq := Option.some.inj heqd
    have hfin := (List.Nodup.get_inj_iff hnodup).mp heq
    have hval := congrArg Fin.val hfin
    simp only [] at hval
    omega
  · intro c hc
    rcases List.mem_iff_get.mp hc with ⟨idx, hget⟩
    refine ⟨idx.val + 1, by omega, by omega, ?_⟩
    rw [hsome (idx.val + 1) (by omega) (by omega)]
    have hgeteq : ((eligibleList st).get ⟨idx.val + 1 - 1, by omega⟩) =
        (eligibleList st).get idx :=
      congrArg (eligibleList st).get (Fin.ext (by simp))
    rw [hgeteq, hget]

/-- Witness for C2 on the two-variable program: the collector succeeds,
`queryCount` is 2, index 1 picks `p` (canonical id 0) and index 2 picks `q`
(canonical id 1). -/
theorem selector_count_bijection_witness :
    runCollector progPQ = some stPQ ∧
    (doAnalysis stPQ 0).ValidInstanceNum = (eligibleList stPQ).length ∧
    (doAnalysis stPQ 1).TheDecl = (eligibleList stPQ)[0]? ∧
    (doAnalysis stPQ 2).TheDecl = (eligibleList stPQ)[1]? := by
  have h : runCollector progPQ = some stPQ := rfl
  have hthm := selector_count_bijection progPQ stPQ 0 h
  refine ⟨h, hthm.1, ?_, ?_⟩
  · exact hthm.2.2.1 1 (by decide) (by decide)
  · exact hthm.2.2.1 2 (by decide) (by decide)

/-- Claim C3: for an assignment (plain or compound) whose left-hand side
has pointer type, a right-hand side that strips to a declaration
reference, a unary-operator expression, or an array-subscript expression
leaves the state (in particular `ValidDecls`) unchanged; any other
right-hand-side shape removes the canonical declaration the left-hand side
resolves to from `ValidDecls`, making it ineligible. -/
theorem assignment_rhs_validset (st : CollectState) (op : BinOp)
    (lhs rhs : Expr) (hop : op.isAssignmentOp = true)
    (hty : lhs.type.isPointer = true) :
    (safeRhsShape (ignoreParenCasts rhs) = true →
      VisitBinaryOperator st op lhs rhs = some st) ∧
    (safeRhsShape (ignoreParenCasts rhs) = false →
      ∀ c, getRefDecl lhs = some c →
        VisitBinaryOperator st op lhs rhs =
          some { st with ValidDecls := st.ValidDecls.erase c } ∧
        (st.ValidDecls.Nodup → c ∉ st.ValidDecls.erase c)) := by
  unfold VisitBinaryOperator
  rw [hop, hty]
  simp only [Bool.not_true, Bool.false_eq_true, if_false]
  constructor
  · intro hsafe
    rw [if_pos hsafe]
  · intro hsafe c hc
    rw [if_neg (by rw [hsafe]; exact Bool.false_ne_true), hc]
    refine ⟨rfl, ?_⟩
    intro hnodup hcmem
    exact ((List.Nodup.mem_erase_iff hnodup).mp hcmem).1 rfl

/-- Witness for C3: in the one-declaration state, the safe assignment
`p = q` (declaration-reference right-hand side) changes nothing, while
`p = f(...)` (call right-hand side) erases `p` (canonical id 5) from
`ValidDecls`, leaving it out of the valid set. -/
theorem assignment_rhs_validset_witness :
    VisitBinaryOperator stAssign BinOp.assign
        (Expr.declRef (CType.pointer CType.scalar) 5)
        (Expr.declRef (CType.pointer CType.scalar) 5) = some stAssign ∧
    VisitBinaryOperator stAssign BinOp.assign
        (Expr.declRef (CType.pointer CType.scalar) 5)
        (Expr.call (CType.pointer CType.scalar) (Expr.literal CType.scalar)) =
      some { stAssign with ValidDecls := stAssign.ValidDecls.erase 5 } ∧
    5 ∉ stAssign.ValidDecls.erase 5 := by
  have hsafe := assignment_rhs_validset stAssign BinOp.assign
    (Expr.declRef (CType.pointer CType.scalar) 5)
    (Expr.declRef (CType.pointer CType.scalar) 5) rfl rfl
  have hunsafe := assignment_rhs_validset stAssign BinOp.assign
    (Expr.declRef (CType.pointer CType.scalar) 5)
    (Expr.call (CType.pointer CType.scalar) (Expr.literal CType.scalar))
    rfl rfl
  rcases hunsafe.2 rfl 5 rfl with ⟨h1, h2⟩
  exact ⟨hsafe.1 rfl, h1, h2 (by decide)⟩

/-- Claim C4: the collector adds a canonical declaration to
`AddrTakenDecls` exactly when it visits an address-of operation whose
operand, after stripping parentheses and casts, is a declaration reference
or a member access; any other opcode or operand shape (in particular an
address-of of a dereference) leaves the state unchanged. -/
theorem addrof_collection (st : CollectState) (op : UnaryOp) (sub : Expr)
    (c : Nat) :
    (c ∈ (VisitUnaryOperator st op sub).AddrTakenDecls ↔
      c ∈ st.AddrTakenDecls ∨
        (op = UnaryOp.addrOf ∧
          getCanonicalDeclaratorDecl (ignoreParenCasts sub) = some c)) ∧
    ((op ≠ UnaryOp.addrOf ∨
      getCanonicalDeclaratorDecl (ignoreParenCasts sub) = none) →
      VisitUnaryOperator st op sub = st) := by
  unfold VisitUnaryOperator
  by_cases hop : op = UnaryOp.addrOf
  · subst hop
    rw [if_neg (by simp)]
    cases hm : getCanonicalDeclaratorDecl (ignoreParenCasts sub) with
    | none =>
        constructor
        · simp
        · intro hc
          rfl
    | some c' =>
        constructor
        · show c ∈ insertOnce st.AddrTakenDecls c' ↔ _
          rw [mem_insertOnce]
          constructor
          · rintro (hmem | rfl)
            · exact Or.inl hmem
            · exact Or.inr ⟨rfl, rfl⟩
          · rintro (hmem | ⟨-, hsome⟩)
            · exact Or.inl hmem
            · exact Or.inr (Option.some.inj hsome).symm
        · rintro (hne | hnone)
          · exact absurd rfl hne
          · cases hnone
  · rw [if_pos (by simp [hop])]
    constructor
    · simp [hop]
    · intro hc
      rfl

/-- Witness for C4: taking the address of a direct reference to canonical
id 9 records it in `AddrTakenDecls`, while taking the address of a
dereference records nothing and leaves the state unchanged. -/
theorem addrof_collection_witness :
    9 ∈ (VisitUnaryOperator stAssign UnaryOp.addrOf
      (Expr.declRef (CType.pointer CType.scalar) 9)).AddrTakenDecls ∧
    VisitUnaryOperator stAssign UnaryOp.addrOf
      (Expr.unary (CType.pointer CType.scalar) UnaryOp.deref
        (Expr.declRef (CType.pointer (CType.pointer CType.scalar)) 9)) =
      stAssign := by
  constructor
  · exact (addrof_collection stAssign UnaryOp.addrOf
      (Expr.declRef (CType.pointer CType.scalar) 9) 9).1.mpr
      (Or.inr ⟨rfl, rfl⟩)
  · exact (addrof_collection stAssign UnaryOp.addrOf
      (Expr.unary (CType.pointer CType.scalar) UnaryOp.deref
        (Expr.declRef (CType.pointer (CType.pointer CType.scalar)) 9)) 9).2
      (Or.inr rfl)

/-- Claim C5: when the requested apply index strictly exceeds the eligible
count, the run reports the max-instance usage error (not the internal
error), performs no rewrite traversal, and leaves the program
unmodified. -/
theorem max_instance_usage_error (p : List Node) (st : CollectState)
    (counter : Int) (h : runCollector p = some st)
    (hc : ((eligibleList st).length : Int) < counter) :
    HandleTranslationUnit p counter false =
      some { ValidInstanceNum := (eligibleList st).length, TheDecl := none,
             TransError := some TransformationError.TransMaxInstanceError,
             program := p, didRewrite := false } := by
  unfold HandleTranslationUnit
  rw [h]
  show (if (false : Bool) then _ else _) = _
  rw [if_neg (by simp)]
  rw [doAnalysis_eq]
  rw [if_pos hc]
  rw [pickAt_none_of_gt counter (eligibleList st) hc]

/-- Witness for C5: on the two-variable program (eligible count 2),
requesting index 3 yields exactly the max-instance error with the program
returned unmodified and the rewrite traversal not run. -/
theorem max_instance_usage_error_witness :
    runCollector progPQ = some stPQ ∧
    HandleTranslationUnit progPQ 3 false =
      some { ValidInstanceNum := (eligibleList stPQ).length, TheDecl := none,
             TransError := some TransformationError.TransMaxInstanceError,
             program := progPQ, didRewrite := false } :=
  ⟨rfl, max_instance_usage_error progPQ stPQ 3 rfl (by decide)⟩

/-- Counterexample to claim C6 as stated: in query mode with counter 1 on a
program with one eligible declaration, `doAnalysis` still runs before the
query-mode early return and records the chosen declaration, so the
selection state is `some 0`, not unset. -/
theorem query_mode_selection_counterexample :
    HandleTranslationUnit progOne 1 true =
      some { ValidInstanceNum := 1, TheDecl := some 0, TransError := none,
             program := progOne, didRewrite := false } := by decide

/-- Amended claim C6: in query mode the run reports the final running
count, reports no error, performs no rewrite traversal and leaves the
program unmodified; however the selector still runs with the given
counter, so the chosen declaration is set exactly when the counter lies in
`1..count` and remains unset for every other counter value (in particular
for a non-positive or out-of-range counter, as with the driver's default
counter in query mode). -/
theorem query_mode_no_rewrite (p : List Node) (st : CollectState)
    (counter : Int) (h : runCollector p = some st) :
    HandleTranslationUnit p counter true =
      some { ValidInstanceNum := (eligibleList st).length,
             TheDecl := pickAt counter 0 (eligibleList st),
             TransError := none, program := p, didRewrite := false } ∧
    ((pickAt counter 0 (eligibleList st)).isSome = true ↔
      1 ≤ counter ∧ counter ≤ ((eligibleList st).length : Int)) := by
  constructor
  · unfold HandleTranslationUnit
    rw [h]
    show (if (true : Bool) then _ else _) = _
    rw [if_pos rfl]
    rw [doAnalysis_eq]
  · exact pickAt_isSome counter (eligibleList st)

/-- Witness for the amended C6: a query-mode run with the out-of-range
counter 0 on the one-declaration program reports count 1, no error, the
unmodified program, and an unset selection. -/
theorem query_mode_no_rewrite_witness :
    runCollector progOne = some stOne ∧
    HandleTranslationUnit progOne 0 true =
      some { ValidInstanceNum := (eligibleList stOne).length,
             TheDecl := pickAt 0 0 (eligibleList stOne),
             TransError := none, program := progOne, didRewrite := false } ∧
    pickAt 0 0 (eligibleList stOne) = none :=
  ⟨rfl, (query_mode_no_rewrite progOne stOne 0 rfl).1, by decide⟩

/-- Claim C7 evaluated at its scenario (`int **p; int *q; ... **p ...`):
the selection half of the claim holds — the count is 2, index 1 selects
`p` (canonical id 0, tier 1) and index 2 selects `q` (canonical id 1) —
but the rewrite half fails on the code: `rewriteVarDecl` and all use-site
rewrite visitors are empty TODO stubs, so after applying index 1 the
program is returned byte-for-byte unmodified; `p` still has type
`int **` and the double dereference of `p` is still a double
dereference, where the claim requires `int *` and a single dereference. -/
theorem rewrite_stub_run :
    HandleTranslationUnit progPQ 1 false =
      some { ValidInstanceNum := 2, TheDecl := some 0, TransError := none,
             program := progPQ, didRewrite := true } ∧
    HandleTranslationUnit progPQ 2 false =
      some { ValidInstanceNum := 2, TheDecl := some 1, TransError := none,
             program := progPQ, didRewrite := true } := by
  constructor
  · decide
  · decide

/-- Claim C8: registration is idempotent over canonical identity — on any
state reached by a complete collection traversal, every registered
declaration sits at a positive indirection level, at exactly one level, at
most once within that level's registry set, and `ValidDecls` holds each
canonical declaration at most once, even when the program contains
multiple redeclarations of one entity. -/
theorem registration_idempotent (p : List Node) (st : CollectState)
    (h : runCollector p = some st) :
    (∀ lvl c, c ∈ declsAt st lvl → 1 ≤ lvl) ∧
    (∀ l1 l2 c, c ∈ declsAt st l1 → c ∈ declsAt st l2 → l1 = l2) ∧
    (∀ lvl, (declsAt st lvl).Nodup) ∧
    st.ValidDecls.Nodup := by
  have hinv := CInv_runCollector p st h
  exact ⟨hinv.levelPos, hinv.oneLevel, hinv.levelNodup, hinv.validNodup⟩

/-- Witness for C8 on a program with two redeclarations of one entity:
the entity (canonical id 7) is registered once at level 1 and appears once
in `ValidDecls`, and the registry set at level 1 is duplicate-free. -/
theorem registration_idempotent_witness :
    runCollector progRedecl = some stRedecl ∧
    declsAt stRedecl 1 = [7] ∧ stRedecl.ValidDecls = [7] ∧
    (declsAt stRedecl 1).Nodup := by
  have h : runCollector progRedecl = some stRedecl := rfl
  exact ⟨h, by decide, by decide,
    (registration_idempotent progRedecl stRedecl h).2.2.1 1⟩

/-- Claim C9: the variadic-argument escape hatch is purely name-based —
any declaration named `reg_save_area` or `overflow_arg_area` is skipped
outright by `VisitDeclaratorDecl` (never registered, so never eligible and
never counted), regardless of its kind or type, even an ordinary
user-written pointer variable. -/
theorem vaarg_name_skip (st : CollectState) (d : Decl)
    (h : d.name = "reg_save_area" ∨ d.name = "overflow_arg_area") :
    VisitDeclaratorDecl st d = st := by
  unfold VisitDeclaratorDecl
  rw [if_pos]
  unfold isVAArgField
  rcases h with h | h <;> rw [h] <;> rfl

/-- Witness for C9: an ordinary user-written variable `int **reg_save_area`
(kind `var`, pointer type) is skipped by the collector, leaving a fresh
state untouched. -/
theorem vaarg_name_skip_witness :
    declVA.name = "reg_save_area" ∧ declVA.kind = DeclKind.var ∧
    declVA.type.isPointer = true ∧
    VisitDeclaratorDecl initCollectState declVA = initCollectState :=
  ⟨rfl, rfl, rfl, vaarg_name_skip initCollectState declVA (Or.inl rfl)⟩

/-- Claim C10: left-hand-side resolution is partial — `getRefDecl`
resolves to a canonical declaration exactly when the expression, after
repeatedly stripping parentheses, casts and array subscripts, is a
declaration reference, a member access, or a chain of dereference unary
operators ending in one (`goodLhs`); for any other pointer-typed left-hand
side of an assignment whose right-hand side is not one of the safe shapes
(for example `*f() = e`), the collection visitor hits the `TransAssert`
and the invocation aborts instead of skipping or disqualifying, as the
concrete program `progAbort` shows. -/
theorem getRefDecl_partiality (e : Expr) (st : CollectState) (op : BinOp)
    (rhs : Expr) (hop : op.isAssignmentOp = true)
    (hty : e.type.isPointer = true)
    (hrhs : safeRhsShape (ignoreParenCasts rhs) = false) :
    ((getRefDecl e).isSome = true ↔ goodLhs e = true) ∧
    (goodLhs e = false → VisitBinaryOperator st op e rhs = none) ∧
    runCollector progAbort = none := by
  refine ⟨by rw [getRefDecl_isSome], ?_, rfl⟩
  intro hbad
  have hnone : getRefDecl e = none := by
    have hs := getRefDecl_isSome e
    rw [hbad] at hs
    cases hcase : getRefDecl e with
    | none => rfl
    | some c => rw [hcase] at hs; cases hs
  unfold VisitBinaryOperator
  rw [hop, hty]
  simp only [Bool.not_true, Bool.false_eq_true, if_false]
  rw [if_neg (by rw [hrhs]; exact Bool.false_ne_true), hnone]

/-- Witness for C10 at the aborting shape: the left-hand side `*f()` is
not resolvable (`goodLhs` is false), and the assignment `*f() = 0` makes
the collection visitor abort. -/
theorem getRefDecl_partiality_witness :
    goodLhs (Expr.unary (CType.pointer CType.scalar) UnaryOp.deref
      (Expr.call (CType.pointer (CType.pointer CType.scalar))
        (Expr.literal CType.scalar))) = false ∧
    VisitBinaryOperator initCollectState BinOp.assign
      (Expr.unary (CType.pointer CType.scalar) UnaryOp.deref
        (Expr.call (CType.pointer (CType.pointer CType.scalar))
          (Expr.literal CType.scalar)))
      (Expr.literal (CType.pointer CType.scalar)) = none := by
  have hthm := getRefDecl_partiality
    (Expr.unary (CType.pointer CType.scalar) UnaryOp.deref
      (Expr.call (CType.pointer (CType.pointer CType.scalar))
        (Expr.literal CType.scalar)))
    initCollectState BinOp.assign
    (Expr.literal (CType.pointer CType.scalar)) rfl rfl rfl
  exact ⟨by decide, hthm.2.1 (by decide)⟩

end RPL
